import Mathlib

/-!
# Verification of the Cruise round engine

Shallow embedding of the round-engine core of
`src/src/components/CruiseNeonCrash.tsx`.

Modelling conventions:
* JavaScript numbers are modelled as rationals (`ℚ`).
* Every `Math.random()` draw is made an explicit parameter `r` with the
  hypothesis `0 ≤ r ∧ r < 1` where a theorem needs it.
* `parseFloat(x.toFixed(2))` is modelled by `round2` (round to the nearest
  hundredth; ties round up, which agrees with `toFixed` on the positive
  values produced by this program).
* All timestamps are in seconds; the source mixes milliseconds and seconds,
  so the `250` ms spawn-grace window becomes `1/4` s and the `ts` fed to the
  frame loop is in seconds as well.
* React `useState`/`useRef` cells are collected into one `GameState` record;
  each event handler / callback of the source becomes a function
  `GameState → GameState` (plus explicit random draws), and the reachable
  states are generated by the step relation `Step`.
-/

namespace Cruise

/-- `type Phase = "idle" | "betting" | "running" | "cashed" | "crashed" | "lifeboat"` -/

inductive Phase where
  | idle
  | betting
  | running
  | cashed
  | crashed
  | lifeboat
deriving DecidableEq

/-- The `state` field of an obstacle: `"idle" | "breaking"`. -/

inductive ObstState where
  | idle
  | breaking
deriving DecidableEq

/-- `type Obstacle` (the source uses a random string `id`; a number here). -/

structure Obstacle where
  id : ℕ
  x : ℚ
  width : ℚ
  height : ℚ
  multiplier : ℚ
  iceberg : Bool
  state : ObstState
  bornAt : ℚ
deriving DecidableEq

/-- `const rand = (min, max) => Math.random() * (max - min) + min`,
with the `Math.random()` draw `r` made explicit. -/

def rand (lo hi r : ℚ) : ℚ := r * (hi - lo) + lo

/-- `const clamp = (n, a, b) => Math.max(a, Math.min(b, n))` -/

def clamp (n a b : ℚ) : ℚ := max a (min b n)

/-- Model of `parseFloat(x.toFixed(2))`: round to the nearest hundredth. -/

def round2 (q : ℚ) : ℚ := (round (q * 100) : ℤ) / 100

/-- `q` is an exact two-decimal value (an integer number of hundredths). -/

def Is2Dec (q : ℚ) : Prop := (q * 100).den = 1

instance (q : ℚ) : Decidable (Is2Dec q) :=
  inferInstanceAs (Decidable ((q * 100).den = 1))

/-- `const HIT_INTERVAL = 2.0; // seconds between ship/ice contact` -/

def HIT_INTERVAL : ℚ := 2

/-- `const SPEED_MULTIPLIER = 1.5;` -/

def SPEED_MULTIPLIER : ℚ := 1.5

/-- `const SHIP_LEFT_PAD = 0;` -/

def SHIP_LEFT_PAD : ℚ := 0

/-- `const SHIP_RIGHT_PAD = 0;` -/

def SHIP_RIGHT_PAD : ℚ := 0

/-- `const ICE_LEFT_PAD = 50;` -/

def ICE_LEFT_PAD : ℚ := 50

/-- `const ICE_RIGHT_PAD = 0;` -/

def ICE_RIGHT_PAD : ℚ := 0

/-- `function icebergChance() { return 0.4; }` -/

def icebergChance : ℚ := 0.4

/-- The multiplier sequencer cells `nextIndexRef` / `plannedMultRef`. -/

structure PlanState where
  nextIndex : ℕ
  planned : ℚ
deriving DecidableEq

/-- The value computed by `planNextMultiplier` (source lines 161-178) for
call index `idx` and previous planned value `last`, with the random draw
`r` explicit.  The source binds `Math.min(2.1, last + inc)` to a local
`next` and overwrites it when `next <= last`; here the `min` expression is
simply repeated in the branch. -/

def planNextValue (idx : ℕ) (last r : ℚ) : ℚ :=
  if idx = 1 then
    round2 (rand 1.1 1.3 r)
  else if 2 ≤ idx ∧ idx ≤ 5 then
    round2 (if min 2.1 (last + rand 0.05 0.3 r) ≤ last
            then min 2.1 (last + 0.05)
            else min 2.1 (last + rand 0.05 0.3 r))
  else
    round2 (last + round2 (rand 1.0 3.0 r))

/-- `planNextMultiplier`: emits the next multiplier and advances the
sequencer state (`plannedMultRef.current = next; nextIndexRef.current = idx + 1`). -/

def planNextMultiplier (p : PlanState) (r : ℚ) : ℚ × PlanState :=
  (planNextValue p.nextIndex p.planned r,
   ⟨p.nextIndex + 1, planNextValue p.nextIndex p.planned r⟩)

/-- The multiplier sequence produced by consecutive sequencer calls fed by
the random draws `rs`, starting from sequencer state `p`. -/

def planList (p : PlanState) : List ℚ → List ℚ
  | [] => []
  | r :: rs => (planNextMultiplier p r).1 :: planList (planNextMultiplier p r).2 rs

/-- Invariant carried by the sequencer state between calls. -/

def PlanBounds (p : PlanState) : Prop :=
  Is2Dec p.planned ∧ 1 ≤ p.planned ∧ (p.nextIndex ≤ 5 → p.planned ≤ 2.1) ∧
  1 ≤ p.nextIndex

/-- The per-index contract of the generated multiplier sequence:
`i = 1` lands in `[1.10, 1.30]`; `2 ≤ i ≤ 5` is capped at 2.10,
non-decreasing, strictly increasing while below the cap and constant at the
cap; `i ≥ 6` grows by at least 1.00. -/

def stepOK (i : ℕ) (prev v : ℚ) : Prop :=
  if i = 1 then 1.1 ≤ v ∧ v ≤ 1.3
  else if i ≤ 5 then
    v ≤ 2.1 ∧ prev ≤ v ∧ (prev < 2.1 → prev < v) ∧ (prev = 2.1 → v = 2.1)
  else prev + 1 ≤ v

/-- `chainOK i prev vs`: the values `vs`, emitted starting at call index
`i` after previous value `prev`, all satisfy `stepOK`. -/

def chainOK : ℕ → ℚ → List ℚ → Prop
  | _, _, [] => True
  | i, prev, v :: vs => stepOK i prev v ∧ chainOK (i + 1) v vs

/-! ## Game state and operations

All React `useState` cells and the mutable refs that shadow them
(`activeBetRef`, `hasCashedRef`, `joinedRef`, `phaseRef`, `collectedRef`,
`safeHitsRef`, `obstaclesRef`, `speedRef`, `spawnAccumRef`, `scrollRef`,
`lastTsRef`, sequencer refs, ship bounds) are collected into one record.
The source keeps ref and state in lock-step, so one field per cell. -/

structure GameState where
  phase : Phase
  balance : ℚ
  bet : ℚ
  message : String
  countdown : ℕ
  collected : ℚ
  safeHits : ℕ
  obstacles : List Obstacle
  activeBet : Option ℚ
  hasCashed : Bool
  joined : Bool
  plan : PlanState
  speed : ℚ
  spawnAccum : ℚ
  scroll : ℚ
  shipLeft : ℚ
  shipRight : ℚ
  nextId : ℕ
  now : ℚ
deriving DecidableEq

/-- `spawnWorldXFor` (source lines 604-609): world-x such that contact
happens exactly `k * HIT_INTERVAL` seconds from now. -/

def spawnWorldXFor (speed k shipRightNow currentScroll : ℚ) : ℚ :=
  shipRightNow - ICE_LEFT_PAD + currentScroll + speed * (k * HIT_INTERVAL)

/-- The overlap test of the frame loop (source line 430-432):
`screenLeft <= shipRightNow && screenRight >= shipLeft`, where `shipL` and
`shipR` are the already padded ship bounds. -/

def contactTest (shipL shipR scroll : ℚ) (o : Obstacle) : Bool :=
  decide ((o.x - scroll) + ICE_LEFT_PAD ≤ shipR) &&
  decide (shipL ≤ (o.x - scroll) + o.width - ICE_RIGHT_PAD)

/-- `const dt = Math.min(0.05, (ts - lastTsRef.current) / 1000)`, with all
times in seconds (`GameState.now` plays the role of `lastTsRef`). -/

def tickDt (s : GameState) (ts : ℚ) : ℚ := min 0.05 (ts - s.now)

/-- The scroll offset after this tick advanced it by `speed * dt`. -/

def tickScroll (s : GameState) (ts : ℚ) : ℚ := s.scroll + s.speed * tickDt s ts

/-- The per-obstacle condition of the collision scan (source lines
429-434): `idle`, past its 250 ms spawn-grace window, and overlapping the
padded ship hitbox at this tick's scroll. -/

def hitPred (s : GameState) (ts : ℚ) (o : Obstacle) : Bool :=
  o.state == ObstState.idle && !(decide (ts - o.bornAt < 0.25)) &&
  contactTest (s.shipLeft + SHIP_LEFT_PAD) (s.shipRight + SHIP_RIGHT_PAD)
    (tickScroll s ts) o

/-- The collision scan of the frame loop (source lines 426-449): the first
obstacle in array order satisfying `hitPred`.  At most one contact is
resolved per tick (the loop `break`s after a hit). -/

def hitScan (s : GameState) (ts : ℚ) : Option Obstacle :=
  s.obstacles.find? (hitPred s ts)

/-- Crash outcome handling (source lines 451-469): one survival draw `r`;
`r < 0.05` is the lifeboat outcome, which credits
`activeBet * collected` only when the one-shot cash-out guard is unset;
otherwise the round crashes with no balance change.  (Message strings are
abbreviated; the source interpolates no state into these two.) -/

def resolveHazard (s : GameState) (r : ℚ) : GameState :=
  if r < 0.05 then
    { s with
      phase := Phase.lifeboat,
      balance := if s.hasCashed then s.balance
                 else s.balance + s.activeBet.getD 0 * s.collected,
      message := "You hit a hidden iceberg but escaped in lifeboats" }
  else
    { s with
      phase := Phase.crashed,
      message := "Hidden iceberg! The voyage ends here." }

/-- Mark the struck obstacle as `breaking`
(`prev.map((p) => (p.id === o.id ? { ...p, state: "breaking" } : p))`). -/

def markBreaking (l : List Obstacle) (i : ℕ) : List Obstacle :=
  l.map fun p => if p.id = i then { p with state := ObstState.breaking } else p

/-- Random draws consumed by one frame: sequencer draw and iceberg draw for
a potential spawn, survival draw for a potential hazard contact. -/

structure TickRand where
  rPlan : ℚ
  rIce : ℚ
  rLife : ℚ
deriving DecidableEq

def ValidTickRand (rnd : TickRand) : Prop :=
  (0 ≤ rnd.rPlan ∧ rnd.rPlan < 1) ∧ (0 ≤ rnd.rIce ∧ rnd.rIce < 1) ∧
  (0 ≤ rnd.rLife ∧ rnd.rLife < 1)

instance (rnd : TickRand) : Decidable (ValidTickRand rnd) :=
  inferInstanceAs (Decidable (_ ∧ _))

/-- Append one obstacle spawned at the `k = 2` line (both in-loop spawn
paths use `spawnWorldXFor(2, shipBoundsRef.current.right, scrollRef.current)`),
drawing its multiplier from the sequencer and its hazard flag with
probability `icebergChance`. -/

def spawnOne (s : GameState) (ts : ℚ) (rnd : TickRand) : GameState :=
  { s with
    obstacles := s.obstacles ++
      [{ id := s.nextId,
         x := spawnWorldXFor s.speed 2 s.shipRight s.scroll,
         width := 220, height := 110,
         multiplier := (planNextMultiplier s.plan rnd.rPlan).1,
         iceberg := decide (rnd.rIce < icebergChance),
         state := ObstState.idle, bornAt := ts }],
    plan := (planNextMultiplier s.plan rnd.rPlan).2,
    nextId := s.nextId + 1 }

/-- Off-screen cull (source line 508): keep obstacles whose trailing edge
is still right of `-40`. -/

def cull (s : GameState) : GameState :=
  { s with
    obstacles := s.obstacles.filter fun o =>
      decide ((o.x - s.scroll) + o.width > -40) }

/-- Which of the two spawn paths fired during a tick. -/

structure TickInfo where
  spawnedA : Bool
  spawnedB : Bool
deriving DecidableEq

/-- Number of obstacles in the `idle` state. -/

def idleCount (l : List Obstacle) : ℕ := l.countP fun o => o.state == ObstState.idle

/-- Spawn scheduling of the frame loop (source lines 471-493 plus the cull
at 507-512): path (a) replaces a safe hit immediately when the idle count
is below 2 and resets the cadence accumulator; otherwise path (b) spawns on
the accumulated-time cadence when `spawnAccum ≥ HIT_INTERVAL` and the idle
count is below 2.  The source guards path (b) by `!spawnedThisFrame` and
its `while` body sets `spawnedThisFrame`, so it runs at most once; it is
therefore rendered as an `if`. -/

def spawnPhase (s : GameState) (safeHit : Bool) (ts : ℚ) (rnd : TickRand) :
    GameState × TickInfo :=
  if safeHit = true ∧ idleCount s.obstacles < 2 then
    (cull { spawnOne s ts rnd with spawnAccum := 0 }, ⟨true, false⟩)
  else if HIT_INTERVAL ≤ s.spawnAccum ∧ idleCount s.obstacles < 2 then
    (cull { spawnOne s ts rnd with spawnAccum := s.spawnAccum - HIT_INTERVAL },
     ⟨false, true⟩)
  else (cull s, ⟨false, false⟩)

/-- One iteration of the rAF `loop` (source lines 404-517).  When the phase
is not `running` the loop body returns without touching any state.
Otherwise: advance `spawnAccum` and the scroll, run the collision scan;
a hazard contact resolves the round through `resolveHazard` (obstacles are
left as they are — `needCommit` is false on that path); a safe contact
stores the obstacle's planned multiplier in `collected`, bumps `safeHits`,
marks the obstacle `breaking` and runs the spawn scheduler with
`safeHitThisFrame = true`; no contact runs the spawn scheduler alone. -/

def tick (s : GameState) (ts : ℚ) (rnd : TickRand) : GameState × TickInfo :=
  if s.phase = Phase.running then
    match hitScan s ts with
    | some o =>
      if o.iceberg then
        (resolveHazard
          { s with
            scroll := tickScroll s ts,
            spawnAccum := s.spawnAccum + tickDt s ts, now := ts } rnd.rLife,
         ⟨false, false⟩)
      else
        spawnPhase
          { s with
            scroll := tickScroll s ts,
            spawnAccum := s.spawnAccum + tickDt s ts, now := ts,
            obstacles := markBreaking s.obstacles o.id,
            collected := o.multiplier, safeHits := s.safeHits + 1 }
          true ts rnd
    | none =>
        spawnPhase
          { s with
            scroll := tickScroll s ts,
            spawnAccum := s.spawnAccum + tickDt s ts, now := ts }
          false ts rnd
  else (s, ⟨false, false⟩)

/-- `startBettingPhase` (source lines 289-313), without the wall-clock
timers: enter the betting window, clear the one-shot guard, the join flag
and the locked bet. -/

def startBettingPhase (s : GameState) : GameState :=
  { s with
    phase := Phase.betting, hasCashed := false, joined := false,
    activeBet := none, countdown := 5,
    message := "Place your bet. Round starts in 5s." }

/-- `cashOutNow` (source lines 531-542): guarded by phase, join flag and
the one-shot guard; credits `activeBet * collected` and sets the guard,
leaving everything else (including the phase) untouched. -/

def cashOutNow (s : GameState) : GameState :=
  if s.phase ≠ Phase.running then s
  else if s.joined = false then s
  else if s.hasCashed = true then s
  else
    { s with
      balance := s.balance + s.activeBet.getD 0 * s.collected,
      hasCashed := true, message := "Cashed out! Voyage continues." }

/-- `cancelBet` (source lines 585-591). -/

def cancelBet (s : GameState) : GameState :=
  if s.phase ≠ Phase.betting then s
  else if s.joined = false then s
  else
    { s with
      joined := false, activeBet := none,
      message := "Bet canceled. You can place a new bet before the round starts." }

/-- `placeBet` (source lines 593-602).  The stake is
`clamp(bet, 1, balance)`; when `stake < 1` only a message is set (the
source interpolates the stake into the success message; elided here). -/

def placeBet (s : GameState) : GameState :=
  if s.phase ≠ Phase.betting then s
  else if clamp s.bet 1 s.balance < 1 then
    { s with message := "Insufficient balance to place a bet." }
  else
    { s with
      joined := true, activeBet := some (clamp s.bet 1 s.balance),
      bet := clamp s.bet 1 s.balance, message := "Bet placed" }

/-- Random draws consumed by `startRound` for the two initial obstacles. -/

structure RoundRand where
  rPlan1 : ℚ
  rIce1 : ℚ
  rPlan2 : ℚ
  rIce2 : ℚ
deriving DecidableEq

def ValidRoundRand (rnd : RoundRand) : Prop :=
  (0 ≤ rnd.rPlan1 ∧ rnd.rPlan1 < 1) ∧ (0 ≤ rnd.rIce1 ∧ rnd.rIce1 < 1) ∧
  (0 ≤ rnd.rPlan2 ∧ rnd.rPlan2 < 1) ∧ (0 ≤ rnd.rIce2 ∧ rnd.rIce2 < 1)

instance (rnd : RoundRand) : Decidable (ValidRoundRand rnd) :=
  inferInstanceAs (Decidable (_ ∧ _))

/-- The stake picked by `startRound` (source lines 323-327). -/

def startStake (s : GameState) : ℚ :=
  if s.joined = true ∧ 0 < s.activeBet.getD 0
  then clamp (s.activeBet.getD 0) 1 s.balance
  else clamp s.bet 1 s.balance

/-- `startRound` (source lines 315-521, the state part).  `balance < 1`
bounces straight back into the betting window (the message it sets first is
immediately overwritten by `startBettingPhase`).  A round that is already
`running` is left alone.  Otherwise: enter `running`, clear the one-shot
guard, reset `collected`/`safeHits`/sequencer/scroll/cadence accumulator,
deduct the stake if the player joined, compute the round speed from lane
geometry, and replace the obstacle set with the two initial obstacles at
the `k = 1` and `k = 2` contact lines (`setObstacles([...])` replaces the
whole array). `t0` is the current timestamp (`performance.now()`). -/

def startRound (s : GameState) (laneW : ℚ) (rnd : RoundRand) (t0 : ℚ) : GameState :=
  if s.balance < 1 then startBettingPhase s
  else if s.phase = Phase.running then s
  else
    { s with
      phase := Phase.running, hasCashed := false, collected := 1, safeHits := 0,
      activeBet := if s.joined then some (startStake s) else none,
      bet := if s.joined then startStake s else s.bet,
      balance := if s.joined then s.balance - startStake s else s.balance,
      message := "Sail on. Cash out before a crash.",
      plan := (planNextMultiplier
        (planNextMultiplier ⟨1, 1⟩ rnd.rPlan1).2 rnd.rPlan2).2,
      scroll := 0, spawnAccum := 0,
      speed := max 60 ((laneW - 12 - s.shipRight) / 4) * SPEED_MULTIPLIER,
      now := t0,
      obstacles :=
        [{ id := s.nextId,
           x := spawnWorldXFor (max 60 ((laneW - 12 - s.shipRight) / 4) * SPEED_MULTIPLIER)
                  1 s.shipRight 0,
           width := 220, height := 110,
           multiplier := (planNextMultiplier ⟨1, 1⟩ rnd.rPlan1).1,
           iceberg := decide (rnd.rIce1 < icebergChance),
           state := ObstState.idle, bornAt := t0 },
         { id := s.nextId + 1,
           x := spawnWorldXFor (max 60 ((laneW - 12 - s.shipRight) / 4) * SPEED_MULTIPLIER)
                  2 s.shipRight 0,
           width := 220, height := 110,
           multiplier := (planNextMultiplier
             (planNextMultiplier ⟨1, 1⟩ rnd.rPlan1).2 rnd.rPlan2).1,
           iceberg := decide (rnd.rIce2 < icebergChance),
           state := ObstState.idle, bornAt := t0 }],
      nextId := s.nextId + 2 }

/-- The 950 ms settle timer of a breaking obstacle (source lines 496-505):
removal by id, idempotent. -/

def removeById (s : GameState) (i : ℕ) : GameState :=
  { s with obstacles := s.obstacles.filter fun o => decide (o.id ≠ i) }

/-- The 650 ms sweep scheduled by `startRound` (source lines 345-347):
drop obstacles still marked `breaking`. -/

def clearBreaking (s : GameState) : GameState :=
  { s with
    obstacles := s.obstacles.filter fun o =>
      decide (o.state ≠ ObstState.breaking) }

/-- The bet `<input>` handler: `setBet(clamp(Number(v), 1, balance))`. -/

def betInput (s : GameState) (v : ℚ) : GameState :=
  { s with bet := clamp v 1 s.balance }

/-- The `x2` button: `setBet(clamp(b * 2, 1, balance))`. -/

def betDouble (s : GameState) : GameState :=
  { s with bet := clamp (s.bet * 2) 1 s.balance }

/-- The `/2` button: `setBet(Math.max(1, Math.floor(b / 2)))`. -/

def betHalve (s : GameState) : GameState :=
  { s with bet := max 1 ((⌊s.bet / 2⌋ : ℤ) : ℚ) }

/-- The initial component state (`useState` initialisers of the source:
balance 1000, bet 10, collected 1, speed 320, ship bounds `{10, 150}`). -/

def initState : GameState :=
  { phase := Phase.idle, balance := 1000, bet := 10, message := "",
    countdown := 0, collected := 1, safeHits := 0, obstacles := [],
    activeBet := none, hasCashed := false, joined := false, plan := ⟨1, 1⟩,
    speed := 320, spawnAccum := 0, scroll := 0, shipLeft := 10,
    shipRight := 150, nextId := 0, now := 0 }

/-- All state-mutating entry points of the component: the player commands,
the phase timers, one frame of the rAF loop, the obstacle-removal timers
and the bet-input widgets.  Random draws are constrained to `[0,1)` and a
frame's timestamp never runs backwards. -/

inductive Step : GameState → GameState → Prop where
  | ofPlaceBet (s : GameState) : Step s (placeBet s)
  | ofCancelBet (s : GameState) : Step s (cancelBet s)
  | ofStartBetting (s : GameState) : Step s (startBettingPhase s)
  | ofStartRound (s : GameState) (laneW : ℚ) (rnd : RoundRand) (t0 : ℚ)
      (h : ValidRoundRand rnd) : Step s (startRound s laneW rnd t0)
  | ofCashOut (s : GameState) : Step s (cashOutNow s)
  | ofTick (s : GameState) (ts : ℚ) (rnd : TickRand) (h : ValidTickRand rnd)
      (hts : s.now ≤ ts) : Step s (tick s ts rnd).1
  | ofRemoveById (s : GameState) (i : ℕ) : Step s (removeById s i)
  | ofClearBreaking (s : GameState) : Step s (clearBreaking s)
  | ofBetInput (s : GameState) (v : ℚ) : Step s (betInput s v)
  | ofBetDouble (s : GameState) : Step s (betDouble s)
  | ofBetHalve (s : GameState) : Step s (betHalve s)

/-- States reachable from the freshly mounted component. -/

def Reachable (s : GameState) : Prop := Relation.ReflTransGen Step initState s

/-- Scenario-B state: running round, joined with a locked stake of 10,
stake already deducted, collected multiplier 1.20. -/

def cashDemo : GameState :=
  { initState with
    phase := Phase.running, joined := true, activeBet := some 10,
    balance := 990, collected := 1.2 }

/-! ## placeBet with insufficient balance (C6) -/

/-- A betting-phase state whose balance is below the minimum stake. -/

def betDemo : GameState :=
  { initState with phase := Phase.betting, balance := 1/2 }

/-- A hazard obstacle in contact with the ship (past the grace window). -/

def hazardObs : Obstacle :=
  { id := 5, x := 0, width := 220, height := 110, multiplier := 1.5,
    iceberg := true, state := ObstState.idle, bornAt := -1 }

def hazardDemo : GameState :=
  { initState with
    phase := Phase.running, obstacles := [hazardObs],
    joined := true, activeBet := some 10, collected := 1.5, balance := 990 }

/-! ## Spawn position and contact timing (C4) -/

/-- An obstacle freshly spawned by `spawnWorldXFor` at interval `k`
(`bornAt = 0`, the standard 220-wide ice block). -/

def spawnedObstacle (speed k shipR scroll0 : ℚ) : Obstacle :=
  { id := 0, x := spawnWorldXFor speed k shipR scroll0, width := 220,
    height := 110, multiplier := 1, iceberg := false,
    state := ObstState.idle, bornAt := 0 }

/-- The collision test of the frame loop applied `t` seconds after that
spawn, under constant `speed` (the scroll having advanced by `speed * t`),
including the 250 ms grace-window check. -/

def reportsContact (speed k shipL shipR scroll0 t : ℚ) : Bool :=
  !(decide (t - 0 < 0.25)) &&
  contactTest (shipL + SHIP_LEFT_PAD) (shipR + SHIP_RIGHT_PAD)
    (scroll0 + speed * t) (spawnedObstacle speed k shipR scroll0)

def joinDemo : GameState :=
  { initState with phase := Phase.betting, joined := true, activeBet := some 25 }

def noJoinDemo : GameState :=
  { initState with phase := Phase.betting }

/-! ## Balance invariant (C9) -/

/-- The numeric sanity invariant of the ledger/round state: balance,
locked stake, collected multiplier, planned multiplier and all obstacle
multipliers are nonnegative. -/

def GoodState (s : GameState) : Prop :=
  0 ≤ s.balance ∧ 0 ≤ s.activeBet.getD 0 ∧ 0 ≤ s.collected ∧
  0 ≤ s.plan.planned ∧ ∀ o ∈ s.obstacles, 0 ≤ o.multiplier

/-! ## Collected multiplier (C8)

The frame loop sets `collected` to the struck obstacle's planned
multiplier.  Monotonicity rests on three facts about the running state:
the obstacle array is ordered (by planned multiplier, spawn time and
world-x — spawns always append at the current spawn line with a fresh
sequencer value), every obstacle's multiplier is bounded by the
sequencer's last planned value, and every *idle* obstacle that has not yet
drifted past the ship carries a multiplier at least `collected`.  The
collision scan resolves the first qualifying obstacle in array order; an
idle obstacle *earlier* in the array than the struck one must already have
passed the ship (it is older, hence out of its grace window, and its
world-x is smaller, so its left edge also overlaps), and a passed obstacle
never contacts again. -/

/-- Array order of obstacles: later entries have larger planned
multiplier, spawn time and world-x. -/

def obstLe (o p : Obstacle) : Prop :=
  o.multiplier ≤ p.multiplier ∧ o.bornAt ≤ p.bornAt ∧ o.x ≤ p.x

/-- The world-x at which both in-loop spawn paths place a new obstacle. -/

def spawnLine (s : GameState) : ℚ := spawnWorldXFor s.speed 2 s.shipRight s.scroll

/-- Invariant of a round in progress, restored by `startRound` and
preserved by every tick. -/

def multInv (s : GameState) : Prop :=
  1 ≤ s.collected ∧ 0 ≤ s.speed ∧ PlanBounds s.plan ∧ 2 ≤ s.plan.nextIndex ∧
  s.collected ≤ s.plan.planned ∧
  List.Pairwise obstLe s.obstacles ∧
  (∀ o ∈ s.obstacles, o.multiplier ≤ s.plan.planned ∧ o.bornAt ≤ s.now ∧
    o.x ≤ spawnLine s) ∧
  (∀ o ∈ s.obstacles, o.state = ObstState.idle →
    s.shipLeft + SHIP_LEFT_PAD ≤ (o.x - s.scroll) + o.width - ICE_RIGHT_PAD →
    s.collected ≤ o.multiplier)

/-- A mid-round state satisfying the round invariant: collected 1.20 from
an earlier safe hit, sequencer at index 3 with last planned value 1.50,
no live obstacles. -/

def tickDemo : GameState :=
  { initState with
    phase := Phase.running, collected := 1.2, plan := ⟨3, 1.5⟩,
    speed := 300, obstacles := [] }

/-! ## Theorems -/

/-! ## Arithmetic lemmas about `round2` -/

theorem round_mono_q {a b : ℚ} (h : a ≤ b) : round a ≤ round b := by
  rw [round_eq, round_eq]
  exact Int.floor_mono (by linarith)

theorem round2_mono {a b : ℚ} (h : a ≤ b) : round2 a ≤ round2 b := by
  unfold round2
  have h2 : ((round (a * 100) : ℤ) : ℚ) ≤ ((round (b * 100) : ℤ) : ℚ) :=
    Int.cast_le.mpr (round_mono_q (by linarith))
  linarith

theorem is2Dec_iff {q : ℚ} : Is2Dec q ↔ ∃ n : ℤ, q * 100 = (n : ℚ) := by
  constructor
  · intro h
    refine ⟨(q * 100).num, ?_⟩
    conv_lhs => rw [← Rat.num_div_den (q * 100)]
    rw [h]
    norm_num
  · rintro ⟨n, hn⟩
    unfold Is2Dec
    rw [hn]
    exact Rat.den_intCast n

theorem is2Dec_round2 (q : ℚ) : Is2Dec (round2 q) := by
  rw [is2Dec_iff]
  refine ⟨round (q * 100), ?_⟩
  unfold round2
  field_simp

theorem round2_eq_self {q : ℚ} (h : Is2Dec q) : round2 q = q := by
  obtain ⟨n, hn⟩ := is2Dec_iff.mp h
  unfold round2
  rw [hn, round_intCast]
  field_simp
  linarith

theorem is2Dec_add {a b : ℚ} (ha : Is2Dec a) (hb : Is2Dec b) : Is2Dec (a + b) := by
  obtain ⟨m, hm⟩ := is2Dec_iff.mp ha
  obtain ⟨n, hn⟩ := is2Dec_iff.mp hb
  rw [is2Dec_iff]
  refine ⟨m + n, ?_⟩
  push_cast
  linarith

theorem round2_add_left {a : ℚ} (b : ℚ) (ha : Is2Dec a) :
    round2 (a + b) = a + round2 b := by
  obtain ⟨m, hm⟩ := is2Dec_iff.mp ha
  unfold round2
  have h1 : (a + b) * 100 = b * 100 + (m : ℚ) := by linarith
  rw [h1, round_add_int]
  have h2 : a = (m : ℚ) / 100 := by
    field_simp
    linarith
  push_cast
  rw [h2]
  ring

/-- A numeral with at most two decimal places is an `Is2Dec` value; the
witness is the numerator in hundredths. -/

theorem is2Dec_num (n : ℤ) (q : ℚ) (h : q * 100 = (n : ℚ)) : Is2Dec q :=
  is2Dec_iff.mpr ⟨n, h⟩

theorem round2_nonneg {q : ℚ} (h : 0 ≤ q) : 0 ≤ round2 q := by
  have := round2_mono h
  rwa [round2_eq_self (is2Dec_num 0 _ (by norm_num))] at this

/-! ## Lemmas about the multiplier sequencer -/

theorem planNextValue_is2Dec (idx : ℕ) (last r : ℚ) :
    Is2Dec (planNextValue idx last r) := by
  unfold planNextValue
  split_ifs <;> exact is2Dec_round2 _

/-- First call (`idx = 1`): the value lies in `[1.10, 1.30]`. -/

theorem planNextValue_first {l r : ℚ} (h0 : 0 ≤ r) (h1 : r < 1) :
    1.1 ≤ planNextValue 1 l r ∧ planNextValue 1 l r ≤ 1.3 := by
  unfold planNextValue
  rw [if_pos rfl]
  constructor
  · have h := round2_mono (a := 1.1) (b := rand 1.1 1.3 r) (by unfold rand; nlinarith)
    rwa [round2_eq_self (is2Dec_num 110 _ (by norm_num))] at h
  · have h := round2_mono (a := rand 1.1 1.3 r) (b := 1.3) (by unfold rand; nlinarith)
    rwa [round2_eq_self (q := 1.3) (is2Dec_num 130 _ (by norm_num))] at h

/-- Calls `2 ≤ idx ≤ 5`: the value stays in `[last, 2.10]`, strictly above
`last` as long as the 2.10 cap has not been reached, and pinned at 2.10
once `last = 2.10`. -/

theorem planNextValue_mid {idx : ℕ} {last r : ℚ} (h2 : 2 ≤ idx) (h5 : idx ≤ 5)
    (hd : Is2Dec last) (hle : last ≤ 2.1) (h0 : 0 ≤ r) (h1 : r < 1) :
    last ≤ planNextValue idx last r ∧ planNextValue idx last r ≤ 2.1 ∧
    (last < 2.1 → last < planNextValue idx last r) ∧
    (last = 2.1 → planNextValue idx last r = 2.1) := by
  have hne : ¬ idx = 1 := by omega
  have h21 : round2 (2.1 : ℚ) = 2.1 := round2_eq_self (is2Dec_num 210 _ (by norm_num))
  have hinc0 : (0.05 : ℚ) ≤ rand 0.05 0.3 r := by unfold rand; nlinarith
  have hinc1 : rand 0.05 0.3 r < 0.3 := by unfold rand; nlinarith
  unfold planNextValue
  rw [if_neg hne, if_pos ⟨h2, h5⟩]
  by_cases hcap : min (2.1 : ℚ) (last + rand 0.05 0.3 r) ≤ last
  · have hlast : last = 2.1 := by
      rcases le_or_lt (last + rand 0.05 0.3 r) 2.1 with hA | hA
      · rw [min_eq_right hA] at hcap; linarith
      · rw [min_eq_left hA.le] at hcap; linarith
    rw [if_pos hcap, hlast, min_eq_left (by norm_num : (2.1 : ℚ) ≤ 2.1 + 0.05), h21]
    exact ⟨le_refl _, le_refl _, fun h => h, fun _ => rfl⟩
  · have hcap' := hcap
    push_neg at hcap'
    rw [if_neg hcap]
    rcases le_or_lt (last + rand 0.05 0.3 r) 2.1 with hA | hA
    · rw [min_eq_right hA]
      have hval : round2 (last + rand 0.05 0.3 r)
          = last + round2 (rand 0.05 0.3 r) := round2_add_left _ hd
      have hr0 : (0.05 : ℚ) ≤ round2 (rand 0.05 0.3 r) := by
        have h := round2_mono hinc0
        rwa [round2_eq_self (is2Dec_num 5 _ (by norm_num))] at h
      refine ⟨by rw [hval]; linarith, ?_, fun _ => by rw [hval]; linarith, fun hl => ?_⟩
      · calc round2 (last + rand 0.05 0.3 r) ≤ round2 2.1 := round2_mono hA
          _ = 2.1 := h21
      · exfalso; rw [hl] at hA; linarith
    · rw [min_eq_left hA.le] at hcap' ⊢
      rw [h21]
      exact ⟨hle, le_refl _, fun h => hcap', fun _ => rfl⟩

/-- Calls `idx ≥ 6` (any index outside `{1} ∪ [2,5]`): the value exceeds
`last` by at least 1.00. -/

theorem planNextValue_tail {i : ℕ} {l r : ℚ} (hne1 : ¬ i = 1)
    (hne25 : ¬ (2 ≤ i ∧ i ≤ 5)) (hd : Is2Dec l) (h0 : 0 ≤ r) :
    l + 1 ≤ planNextValue i l r := by
  unfold planNextValue
  rw [if_neg hne1, if_neg hne25]
  have hi1 : (1.0 : ℚ) ≤ round2 (rand 1.0 3.0 r) := by
    have h := round2_mono (a := 1.0) (b := rand 1.0 3.0 r) (by unfold rand; nlinarith)
    rwa [round2_eq_self (q := 1.0) (is2Dec_num 100 _ (by norm_num))] at h
  rw [round2_add_left _ hd, round2_eq_self (is2Dec_round2 _)]
  linarith

/-- Any sequencer output is nonnegative when fed a nonnegative previous
value and a draw in `[0,1)`. -/

theorem planNextValue_nonneg {idx : ℕ} {last r : ℚ} (hl : 0 ≤ last)
    (h0 : 0 ≤ r) : 0 ≤ planNextValue idx last r := by
  unfold planNextValue
  split_ifs with hi hm hc
  · exact round2_nonneg (by unfold rand; nlinarith)
  · exact round2_nonneg (le_min (by norm_num) (by linarith))
  · refine round2_nonneg (le_min (by norm_num) ?_)
    have : (0.05 : ℚ) ≤ rand 0.05 0.3 r := by unfold rand; nlinarith
    linarith
  · refine round2_nonneg ?_
    have : (0 : ℚ) ≤ round2 (rand 1.0 3.0 r) :=
      round2_nonneg (by unfold rand; nlinarith)
    linarith

theorem planBounds_init : PlanBounds ⟨1, 1⟩ :=
  ⟨is2Dec_num 100 _ (by norm_num), le_refl 1, fun _ => by norm_num, le_refl 1⟩

/-- One sequencer call preserves `PlanBounds`, and from the second call on
the emitted value never drops below the previous planned value. -/

theorem planNext_bounds {p : PlanState} {r : ℚ} (hp : PlanBounds p)
    (h0 : 0 ≤ r) (h1 : r < 1) :
    PlanBounds (planNextMultiplier p r).2 ∧
    (2 ≤ p.nextIndex → p.planned ≤ (planNextMultiplier p r).1) := by
  obtain ⟨hd, h1p, hcap, hidx⟩ := hp
  simp only [planNextMultiplier, PlanBounds]
  rcases Nat.lt_or_ge p.nextIndex 2 with hlt | hge
  · have hone : p.nextIndex = 1 := by omega
    obtain ⟨ha, hb⟩ := planNextValue_first (l := p.planned) h0 h1
    rw [hone]
    exact ⟨⟨planNextValue_is2Dec _ _ _, by linarith, fun _ => by linarith, by omega⟩,
      fun h => absurd h (by omega)⟩
  · rcases le_or_lt p.nextIndex 5 with h5 | h6
    · obtain ⟨ha, hb, _, _⟩ :=
        planNextValue_mid hge h5 hd (hcap h5) h0 h1
      exact ⟨⟨planNextValue_is2Dec _ _ _, by linarith, fun _ => hb, by omega⟩,
        fun _ => ha⟩
    · have ht := planNextValue_tail (i := p.nextIndex) (by omega)
        (by omega) hd h0
      exact ⟨⟨planNextValue_is2Dec _ _ _, by linarith, fun h => absurd h (by omega),
        by omega⟩, fun _ => by linarith⟩

theorem stepOK_of_planNext {p : PlanState} {r : ℚ} (hp : PlanBounds p)
    (h0 : 0 ≤ r) (h1 : r < 1) :
    stepOK p.nextIndex p.planned (planNextMultiplier p r).1 := by
  obtain ⟨hd, h1p, hcap, hidx⟩ := hp
  simp only [planNextMultiplier]
  unfold stepOK
  rcases Nat.lt_or_ge p.nextIndex 2 with hlt | hge
  · have hone : p.nextIndex = 1 := by omega
    rw [if_pos hone, hone]
    exact planNextValue_first h0 h1
  · rw [if_neg (by omega)]
    rcases le_or_lt p.nextIndex 5 with h5 | h6
    · rw [if_pos h5]
      obtain ⟨ha, hb, hc, he⟩ := planNextValue_mid hge h5 hd (hcap h5) h0 h1
      exact ⟨hb, ha, hc, he⟩
    · rw [if_neg (by omega)]
      exact planNextValue_tail (by omega) (by omega) hd h0

theorem chainOK_planList {rs : List ℚ} (h : ∀ r ∈ rs, 0 ≤ r ∧ r < 1) :
    ∀ p : PlanState, PlanBounds p → chainOK p.nextIndex p.planned (planList p rs) := by
  induction rs with
  | nil => intro p _; simp [planList, chainOK]
  | cons r rs ih =>
    intro p hp
    obtain ⟨h0, h1⟩ := h r (List.mem_cons_self r rs)
    have hrs : ∀ x ∈ rs, 0 ≤ x ∧ x < 1 := fun x hx => h x (List.mem_cons_of_mem r hx)
    obtain ⟨hp', _⟩ := planNext_bounds hp h0 h1
    exact ⟨stepOK_of_planNext hp h0 h1, ih hrs _ hp'⟩

/-- **C2** (amended). For every multiplier sequence generated within a round
(sequencer reset to index 1, previous value 1), indexed by 1-based call
index `i`: the `i = 1` value lies in `[1.10, 1.30]`; for `2 ≤ i ≤ 5` the
value is at most 2.10, is never below the previous value, is strictly
greater than the previous value whenever the previous value is below the
2.10 cap, and equals 2.10 once the previous value has reached the cap; for
`i ≥ 6` the value exceeds the previous value by at least 1.00.  (All values
rounded to 2 decimals at generation time.) -/

theorem planList_rules (rs : List ℚ) (h : ∀ r ∈ rs, 0 ≤ r ∧ r < 1) :
    chainOK 1 1 (planList ⟨1, 1⟩ rs) :=
  chainOK_planList h ⟨1, 1⟩ planBounds_init

theorem planList_rules_witness : chainOK 1 1 (planList ⟨1, 1⟩ [1/2]) :=
  planList_rules [1/2]
    (by
      intro r hr
      rw [List.mem_singleton] at hr
      subst hr
      constructor <;> norm_num)

/-- **C2** counterexample. The draws below are all in `[0,1)`, yet the
generated sequence is `[1.29, 1.58, 1.87, 2.10, 2.10]`: the 5th value
(call index 5, inside `2 ≤ i ≤ 5`) is not strictly greater than the 4th,
because the 4th already reached the 2.10 cap.  The claim as stated demands
strict growth for every `2 ≤ i ≤ 5`, hence forces a strictly increasing
sequence, which fails here. -/

theorem planList_cap_not_strict :
    (∀ r ∈ [(19 : ℚ)/20, 24/25, 24/25, 24/25, 0], 0 ≤ r ∧ r < 1) ∧
    planList ⟨1, 1⟩ [(19 : ℚ)/20, 24/25, 24/25, 24/25, 0]
      = [1.29, 1.58, 1.87, 2.1, 2.1] ∧
    ¬ List.Chain' (· < ·) (planList ⟨1, 1⟩ [(19 : ℚ)/20, 24/25, 24/25, 24/25, 0]) := by
  have hlist : planList ⟨1, 1⟩ [(19 : ℚ)/20, 24/25, 24/25, 24/25, 0]
      = [1.29, 1.58, 1.87, 2.1, 2.1] := by
    norm_num [planList, planNextMultiplier, planNextValue, rand, round2, min_def]
  refine ⟨?_, hlist, ?_⟩
  · intro r hr
    fin_cases hr <;> constructor <;> norm_num
  · rw [hlist]
    simp only [List.chain'_cons, List.chain'_singleton, and_true]
    intro hcontra
    have := hcontra.2.2.2
    norm_num at this

/-! ## Cash-out (C1) -/

theorem cashOutNow_noop {s : GameState}
    (h : s.phase ≠ Phase.running ∨ s.joined = false ∨ s.hasCashed = true) :
    cashOutNow s = s := by
  unfold cashOutNow
  split_ifs with h1 h2 h3
  · rfl
  · rfl
  · rfl
  · exfalso
    rcases h with h | h | h
    · exact h1 h
    · rw [h] at h2; exact h2 rfl
    · rw [h] at h3; exact h3 rfl

theorem cashOutNow_credit {s : GameState} (hph : s.phase = Phase.running)
    (hj : s.joined = true) (hc : s.hasCashed = false) :
    cashOutNow s =
      { s with
        balance := s.balance + s.activeBet.getD 0 * s.collected,
        hasCashed := true, message := "Cashed out! Voyage continues." } := by
  unfold cashOutNow
  rw [if_neg (by simp [hph]), if_neg (by simp [hj]), if_neg (by simp [hc])]

/-- **C1**. Cash-out is valid only when the phase is `running`, the player
joined the round, and the one-shot guard is unset.  A valid cash-out
credits `payout = activeStake * collectedMultiplier` to the balance and
sets the guard; because the guard is now set, an immediate second attempt
is a complete no-op (in particular the balance is unchanged).  An invalid
attempt (wrong phase, not joined, or already cashed) changes nothing. -/

theorem cashOut_spec (s : GameState) :
    (s.phase = Phase.running → s.joined = true → s.hasCashed = false →
      (cashOutNow s).balance = s.balance + s.activeBet.getD 0 * s.collected ∧
      (cashOutNow s).hasCashed = true ∧
      cashOutNow (cashOutNow s) = cashOutNow s) ∧
    ((s.phase ≠ Phase.running ∨ s.joined = false ∨ s.hasCashed = true) →
      cashOutNow s = s) := by
  constructor
  · intro hph hj hc
    rw [cashOutNow_credit hph hj hc]
    exact ⟨rfl, rfl, cashOutNow_noop (Or.inr (Or.inr rfl))⟩
  · exact cashOutNow_noop

theorem cashOut_spec_witness :
    (cashOutNow cashDemo).balance = 1002 ∧
    (cashOutNow cashDemo).hasCashed = true ∧
    cashOutNow (cashOutNow cashDemo) = cashOutNow cashDemo := by
  obtain ⟨h, _⟩ := cashOut_spec cashDemo
  obtain ⟨h1, h2, h3⟩ := h rfl rfl rfl
  refine ⟨?_, h2, h3⟩
  rw [h1]
  norm_num [cashDemo, initState]

/-- **C6** fails on the code: with `phase = betting`, `balance = 0.5 < 1`
and `bet = 10`, `placeBet` does **not** reject as a no-op — it sets
`joined = true` and locks `activeBet = 1`, a stake exceeding the whole
balance.  The source's `stake < 1` guard (with its "Insufficient balance
to place a bet." message) is unreachable, because
`clamp(bet, 1, balance)` already lower-bounds the stake at 1; the guard
evidences that rejection was the intent. -/

theorem placeBet_dead_guard :
    betDemo.balance < 1 ∧
    (placeBet betDemo).joined = true ∧
    (placeBet betDemo).activeBet = some 1 ∧
    betDemo.balance < (placeBet betDemo).activeBet.getD 0 := by
  have hstake : clamp betDemo.bet 1 betDemo.balance = 1 := by
    norm_num [clamp, betDemo, initState, min_def, max_def]
  have hph : ¬ betDemo.phase ≠ Phase.betting := by
    simp [betDemo, initState]
  unfold placeBet
  rw [if_neg hph, hstake, if_neg (by norm_num)]
  exact ⟨by norm_num [betDemo, initState], rfl, rfl,
    by norm_num [betDemo, initState, Option.getD]⟩

/-! ## Hazard contact outcome (C3) -/

/-- **C3**. When the collision scan of a running tick reports contact with
a hazard obstacle, one survival draw `r ∈ [0,1)` decides the round:
`r < 0.05` ends it in the `lifeboat` phase and credits
`payout = activeStake * collectedMultiplier` exactly when the player has
not already cashed out this round; otherwise the round ends in the
`crashed` phase with the balance unchanged — in particular a cash-out
credit granted earlier (already folded into `balance`) is not reversed. -/

theorem hazard_outcome (s : GameState) (ts : ℚ) (rnd : TickRand) (o : Obstacle)
    (hrun : s.phase = Phase.running) (hhit : hitScan s ts = some o)
    (hice : o.iceberg = true) (h0 : 0 ≤ rnd.rLife) (h1 : rnd.rLife < 1) :
    (rnd.rLife < 0.05 →
      (tick s ts rnd).1.phase = Phase.lifeboat ∧
      (s.hasCashed = false →
        (tick s ts rnd).1.balance = s.balance + s.activeBet.getD 0 * s.collected) ∧
      (s.hasCashed = true → (tick s ts rnd).1.balance = s.balance)) ∧
    (¬ rnd.rLife < 0.05 →
      (tick s ts rnd).1.phase = Phase.crashed ∧
      (tick s ts rnd).1.balance = s.balance) := by
  unfold tick
  rw [if_pos hrun, hhit]
  simp only [hice, if_true]
  constructor
  · intro hr
    unfold resolveHazard
    rw [if_pos hr]
    refine ⟨rfl, fun hc => ?_, fun hc => ?_⟩
    · simp [hc]
    · simp [hc]
  · intro hr
    unfold resolveHazard
    rw [if_neg hr]
    exact ⟨rfl, rfl⟩

theorem hazard_outcome_witness :
    (tick hazardDemo 0 ⟨0, 0, 0⟩).1.phase = Phase.lifeboat ∧
    (tick hazardDemo 0 ⟨0, 0, 0⟩).1.balance = 1005 := by
  have hhit : hitScan hazardDemo 0 = some hazardObs := by
    unfold hitScan
    simp only [hazardDemo, initState, hazardObs, List.find?]
    norm_num [hitPred, contactTest, tickScroll, tickDt, ICE_LEFT_PAD,
      ICE_RIGHT_PAD, SHIP_LEFT_PAD, SHIP_RIGHT_PAD]
  obtain ⟨hl, _⟩ := hazard_outcome hazardDemo 0 ⟨0, 0, 0⟩ hazardObs rfl hhit rfl
    (by norm_num) (by norm_num)
  obtain ⟨hp, hb, _⟩ := hl (by norm_num)
  refine ⟨hp, ?_⟩
  rw [hb rfl]
  norm_num [hazardDemo, initState]

/-- **C4**.  (i) The spawn position is exactly
`shipRightEdge − leftHitboxInset + currentScroll + speed·k·HIT_INTERVAL`.
(ii) Under constant positive `speed`, the collision test reports no
contact strictly before simulated time `k·HIT_INTERVAL` after spawn, and
at the first tick timestamp `t2` at or past `k·HIT_INTERVAL` (its
predecessor `t1` being earlier, with step `dt`) it reports contact, with
`t2` within one tick's `dt` of `k·HIT_INTERVAL`.  The side conditions
`shipL ≤ shipR` and `speed * dt ≤ 170` state that the ship hitbox is
non-degenerate and that one tick cannot move an obstacle past the whole
overlap window (`width − ICE_LEFT_PAD = 170` px). -/

theorem spawn_contact_timing (speed k shipL shipR scroll0 t1 t2 dt : ℚ)
    (hspeed : 0 < speed) (hship : shipL ≤ shipR) (hk : 1 ≤ k)
    (ht1 : t1 < k * HIT_INTERVAL) (ht2 : k * HIT_INTERVAL ≤ t2)
    (hstep : t2 ≤ t1 + dt) (hpersist : speed * dt ≤ 170) :
    spawnWorldXFor speed k shipR scroll0
      = shipR - ICE_LEFT_PAD + scroll0 + speed * k * HIT_INTERVAL ∧
    (∀ t, t < k * HIT_INTERVAL →
      reportsContact speed k shipL shipR scroll0 t = false) ∧
    reportsContact speed k shipL shipR scroll0 t2 = true ∧
    t2 - k * HIT_INTERVAL < dt := by
  have hHI : HIT_INTERVAL = 2 := rfl
  refine ⟨by unfold spawnWorldXFor; ring, ?_, ?_, by linarith⟩
  · intro t ht
    have hpos : 0 < speed * (k * HIT_INTERVAL - t) :=
      mul_pos hspeed (by linarith)
    unfold reportsContact contactTest spawnedObstacle spawnWorldXFor
    unfold ICE_LEFT_PAD SHIP_RIGHT_PAD at *
    simp only [Bool.and_eq_false_iff, decide_eq_false_iff_not, not_le]
    right
    left
    linarith
  · have h2k : (2 : ℚ) ≤ k * HIT_INTERVAL := by rw [hHI]; linarith
    have haux : speed * (t2 - k * HIT_INTERVAL) ≤ speed * dt :=
      mul_le_mul_of_nonneg_left (by linarith) hspeed.le
    have hnonneg : 0 ≤ speed * (t2 - k * HIT_INTERVAL) :=
      mul_nonneg hspeed.le (by linarith)
    unfold reportsContact contactTest spawnedObstacle spawnWorldXFor
    unfold ICE_LEFT_PAD ICE_RIGHT_PAD SHIP_LEFT_PAD SHIP_RIGHT_PAD at *
    simp only [Bool.and_eq_true, Bool.not_eq_true', decide_eq_false_iff_not,
      decide_eq_true_eq, not_lt]
    refine ⟨by linarith, by nlinarith, by nlinarith⟩

theorem spawn_contact_timing_witness :
    reportsContact 300 1 10 150 0 (201/100) = true ∧
    (201/100 : ℚ) - 1 * HIT_INTERVAL < 1/50 := by
  obtain ⟨_, _, h3, h4⟩ := spawn_contact_timing 300 1 10 150 0 (199/100) (201/100)
    (1/50) (by norm_num) (by norm_num) (by norm_num)
    (by norm_num [HIT_INTERVAL]) (by norm_num [HIT_INTERVAL])
    (by norm_num) (by norm_num)
  exact ⟨h3, h4⟩

/-! ## Stake deduction (C7) -/

/-- **C7**.  At a round start from a non-running phase with sufficient
balance: if the player joined, the stake (and nothing else) is deducted
from the balance exactly once, at this `Betting → Running` transition, and
locked into `activeBet`.  If the player did not join, the round still runs
(phase becomes `running`, the two initial obstacles are spawned and the
multiplier sequence is advanced to index 3) but no stake is deducted, the
locked bet stays empty, a cash-out attempt is rejected as a no-op, and
even a lifeboat outcome credits nothing (`activeStake` is 0), so no payout
is possible. -/

theorem startRound_stake_spec (s : GameState) (laneW : ℚ) (rnd : RoundRand)
    (t0 : ℚ) (hbal : 1 ≤ s.balance) (hph : s.phase ≠ Phase.running) :
    (s.joined = true →
      (startRound s laneW rnd t0).balance = s.balance - startStake s ∧
      (startRound s laneW rnd t0).activeBet = some (startStake s) ∧
      (startRound s laneW rnd t0).phase = Phase.running) ∧
    (s.joined = false →
      (startRound s laneW rnd t0).balance = s.balance ∧
      (startRound s laneW rnd t0).activeBet = none ∧
      (startRound s laneW rnd t0).phase = Phase.running ∧
      (startRound s laneW rnd t0).obstacles.length = 2 ∧
      (startRound s laneW rnd t0).plan.nextIndex = 3 ∧
      cashOutNow (startRound s laneW rnd t0) = startRound s laneW rnd t0 ∧
      ∀ r : ℚ, (resolveHazard (startRound s laneW rnd t0) r).balance
        = (startRound s laneW rnd t0).balance) := by
  have hnot : ¬ s.balance < 1 := not_lt.mpr hbal
  unfold startRound
  rw [if_neg hnot, if_neg hph]
  constructor
  · intro hj
    refine ⟨by simp [hj], by simp [hj], rfl⟩
  · intro hj
    refine ⟨by simp [hj], by simp [hj], rfl, rfl, rfl, ?_, ?_⟩
    · exact cashOutNow_noop (Or.inr (Or.inl (by simp [hj])))
    · intro r
      unfold resolveHazard
      by_cases hr : r < 0.05
      · rw [if_pos hr]
        simp [hj]
      · rw [if_neg hr]

theorem startRound_stake_spec_witness :
    (startRound joinDemo 980 ⟨0, 0, 0, 0⟩ 0).balance = 975 ∧
    (startRound noJoinDemo 980 ⟨0, 0, 0, 0⟩ 0).balance = 1000 ∧
    cashOutNow (startRound noJoinDemo 980 ⟨0, 0, 0, 0⟩ 0)
      = startRound noJoinDemo 980 ⟨0, 0, 0, 0⟩ 0 := by
  obtain ⟨hj, _⟩ := startRound_stake_spec joinDemo 980 ⟨0, 0, 0, 0⟩ 0
    (by norm_num [joinDemo, initState]) (by simp [joinDemo, initState])
  obtain ⟨h1, _, _⟩ := hj rfl
  obtain ⟨_, hn⟩ := startRound_stake_spec noJoinDemo 980 ⟨0, 0, 0, 0⟩ 0
    (by norm_num [noJoinDemo, initState]) (by simp [noJoinDemo, initState])
  obtain ⟨h2, _, _, _, _, h3, _⟩ := hn rfl
  refine ⟨?_, by rw [h2]; norm_num [noJoinDemo, initState], h3⟩
  rw [h1]
  norm_num [joinDemo, initState, startStake, clamp, min_def, max_def]

/-! ## Idle-obstacle bound and spawn-path exclusivity (C5) -/

theorem idleCount_filter_le (l : List Obstacle) (p : Obstacle → Bool) :
    idleCount (l.filter p) ≤ idleCount l := by
  unfold idleCount
  rw [List.countP_filter]
  refine List.countP_mono_left fun x _ h => ?_
  rw [Bool.and_eq_true] at h
  exact h.1

theorem idleCount_append_le (l : List Obstacle) (o : Obstacle) :
    idleCount (l ++ [o]) ≤ idleCount l + 1 := by
  unfold idleCount
  rw [List.countP_append]
  have h : List.countP (fun o => o.state == ObstState.idle) [o] ≤ 1 := by
    simp only [List.countP_cons, List.countP_nil]
    split <;> omega
  omega

theorem idleCount_markBreaking_le (l : List Obstacle) (i : ℕ) :
    idleCount (markBreaking l i) ≤ idleCount l := by
  unfold idleCount markBreaking
  rw [List.countP_map]
  refine List.countP_mono_left fun p _ h => ?_
  simp only [Function.comp] at h
  by_cases hid : p.id = i
  · rw [if_pos hid] at h
    exact absurd h (by simp)
  · rwa [if_neg hid] at h

theorem resolveHazard_obstacles (s : GameState) (r : ℚ) :
    (resolveHazard s r).obstacles = s.obstacles := by
  unfold resolveHazard
  split_ifs <;> rfl

theorem idleCount_spawnPhase (s : GameState) (b : Bool) (ts : ℚ) (rnd : TickRand)
    (h : idleCount s.obstacles ≤ 2) :
    idleCount (spawnPhase s b ts rnd).1.obstacles ≤ 2 := by
  unfold spawnPhase
  split_ifs with h1 h2
  · simp only [cull, spawnOne]
    exact le_trans (idleCount_filter_le _ _)
      (le_trans (idleCount_append_le _ _) (by omega))
  · simp only [cull, spawnOne]
    exact le_trans (idleCount_filter_le _ _)
      (le_trans (idleCount_append_le _ _) (by omega))
  · simp only [cull]
    exact le_trans (idleCount_filter_le _ _) h

theorem spawnPhase_info (s : GameState) (b : Bool) (ts : ℚ) (rnd : TickRand) :
    (spawnPhase s b ts rnd).2.spawnedA = false ∨
    (spawnPhase s b ts rnd).2.spawnedB = false := by
  unfold spawnPhase
  split_ifs
  · right; rfl
  · left; rfl
  · left; rfl

/-- **C5**.  (i) A tick of the frame loop preserves "at most 2 idle
obstacles": the safe-hit replacement path and the cadence path each spawn
only when the idle count is below 2, and every other effect (marking
`breaking`, hazard resolution, culling) only removes idle obstacles.
(ii) Within one tick, the two spawn paths never both fire.
(iii) The initial round setup spawns at most 2 idle obstacles — exactly 2
when a round actually starts. -/

theorem idle_le_two (s : GameState) (ts : ℚ) (rnd : TickRand) (laneW t0 : ℚ)
    (rrnd : RoundRand) (h2 : idleCount s.obstacles ≤ 2) :
    idleCount (tick s ts rnd).1.obstacles ≤ 2 ∧
    ((tick s ts rnd).2.spawnedA = false ∨ (tick s ts rnd).2.spawnedB = false) ∧
    idleCount (startRound s laneW rrnd t0).obstacles ≤ 2 ∧
    (1 ≤ s.balance → s.phase ≠ Phase.running →
      idleCount (startRound s laneW rrnd t0).obstacles = 2) := by
  refine ⟨?_, ?_, ?_, ?_⟩
  · unfold tick
    by_cases hrun : s.phase = Phase.running
    · rw [if_pos hrun]
      cases hhit : hitScan s ts with
      | none =>
        dsimp only
        exact idleCount_spawnPhase _ _ _ _ h2
      | some o =>
        dsimp only
        by_cases hice : o.iceberg
        · rw [if_pos hice]
          dsimp only
          rw [resolveHazard_obstacles]
          exact h2
        · rw [if_neg hice]
          exact idleCount_spawnPhase _ _ _ _
            (le_trans (idleCount_markBreaking_le _ _) h2)
    · rw [if_neg hrun]
      exact h2
  · unfold tick
    by_cases hrun : s.phase = Phase.running
    · rw [if_pos hrun]
      cases hhit : hitScan s ts with
      | none =>
        dsimp only
        exact spawnPhase_info _ _ _ _
      | some o =>
        dsimp only
        by_cases hice : o.iceberg
        · rw [if_pos hice]
          left
          rfl
        · rw [if_neg hice]
          exact spawnPhase_info _ _ _ _
    · rw [if_neg hrun]
      left
      rfl
  · unfold startRound
    split_ifs with hb hr hj
    · exact h2
    · exact h2
    · simp [idleCount, List.countP_cons]
    · simp [idleCount, List.countP_cons]
  · intro hbal hph
    unfold startRound
    rw [if_neg (not_lt.mpr hbal), if_neg hph]
    simp [idleCount, List.countP_cons]

theorem idle_le_two_witness :
    idleCount (tick initState 0 ⟨0, 0, 0⟩).1.obstacles ≤ 2 ∧
    idleCount (startRound initState 980 ⟨0, 0, 0, 0⟩ 0).obstacles = 2 := by
  obtain ⟨ha, _, _, hd⟩ := idle_le_two initState 0 ⟨0, 0, 0⟩ 980 0 ⟨0, 0, 0, 0⟩
    (by simp [idleCount, initState])
  exact ⟨ha, hd (by norm_num [initState]) (by simp [initState])⟩

/-! ## The `cashed` phase is never assigned (C10) -/

theorem spawnPhase_phase (s : GameState) (b : Bool) (ts : ℚ) (rnd : TickRand) :
    (spawnPhase s b ts rnd).1.phase = s.phase := by
  unfold spawnPhase cull spawnOne
  split_ifs <;> rfl

theorem resolveHazard_phase (s : GameState) (r : ℚ) :
    (resolveHazard s r).phase = Phase.lifeboat ∨
    (resolveHazard s r).phase = Phase.crashed := by
  unfold resolveHazard
  by_cases hr : r < 0.05
  · rw [if_pos hr]
    left
    rfl
  · rw [if_neg hr]
    right
    rfl

theorem step_no_cashed {s s' : GameState} (h : Step s s')
    (hne : s.phase ≠ Phase.cashed) : s'.phase ≠ Phase.cashed := by
  cases h with
  | ofPlaceBet =>
    unfold placeBet
    split_ifs <;> exact hne
  | ofCancelBet =>
    unfold cancelBet
    split_ifs <;> exact hne
  | ofStartBetting =>
    simp [startBettingPhase]
  | ofStartRound laneW rnd t0 hv =>
    unfold startRound
    split_ifs
    · simp [startBettingPhase]
    · exact hne
    · simp
    · simp
  | ofCashOut =>
    unfold cashOutNow
    split_ifs <;> exact hne
  | ofTick ts rnd hv hts =>
    unfold tick
    by_cases hrun : s.phase = Phase.running
    · rw [if_pos hrun]
      cases hhit : hitScan s ts with
      | none =>
        dsimp only
        rw [spawnPhase_phase]
        exact hne
      | some o =>
        dsimp only
        by_cases hice : o.iceberg
        · rw [if_pos hice]
          dsimp only
          rcases resolveHazard_phase
            { s with
              scroll := tickScroll s ts,
              spawnAccum := s.spawnAccum + tickDt s ts, now := ts } rnd.rLife
            with hp | hp <;> rw [hp] <;> simp
        · rw [if_neg hice]
          rw [spawnPhase_phase]
          exact hne
    · rw [if_neg hrun]
      exact hne
  | ofRemoveById i => exact hne
  | ofClearBreaking => exact hne
  | ofBetInput v => exact hne
  | ofBetDouble => exact hne
  | ofBetHalve => exact hne

/-- **C10**.  The `cashed` (`CashedOut`) phase value is never assigned:
a successful cash-out mutates only the balance, the one-shot `hasCashed`
flag and the status message (in particular the phase stays whatever it
was, i.e. `running` for a valid cash-out); every operation of the engine
preserves "phase is not `cashed`"; hence no state reachable from the
mounted component has phase `cashed`. -/

theorem no_cashed_phase :
    (∀ s : GameState, cashOutNow s =
      { s with
        balance := (cashOutNow s).balance,
        hasCashed := (cashOutNow s).hasCashed,
        message := (cashOutNow s).message }) ∧
    (∀ s s' : GameState, Step s s' →
      s.phase ≠ Phase.cashed → s'.phase ≠ Phase.cashed) ∧
    (∀ s : GameState, Reachable s → s.phase ≠ Phase.cashed) := by
  refine ⟨?_, fun s s' h hne => step_no_cashed h hne, ?_⟩
  · intro s
    unfold cashOutNow
    split_ifs <;> rfl
  · intro s h
    induction h with
    | refl => simp [initState]
    | tail _h hstep ih => exact step_no_cashed hstep ih

theorem no_cashed_phase_witness : initState.phase ≠ Phase.cashed :=
  no_cashed_phase.2.2 initState Relation.ReflTransGen.refl

theorem clamp_le_right {n b : ℚ} (h : 1 ≤ b) : clamp n 1 b ≤ b :=
  max_le h (min_le_left _ _)

theorem one_le_clamp (n b : ℚ) : 1 ≤ clamp n 1 b := le_max_left _ _

theorem startStake_le {s : GameState} (h : 1 ≤ s.balance) :
    startStake s ≤ s.balance := by
  unfold startStake
  split_ifs <;> exact clamp_le_right h

theorem one_le_startStake (s : GameState) : 1 ≤ startStake s := by
  unfold startStake
  split_ifs <;> exact one_le_clamp _ _

theorem goodObs_markBreaking {l : List Obstacle} {i : ℕ}
    (h : ∀ o ∈ l, 0 ≤ o.multiplier) :
    ∀ o ∈ markBreaking l i, 0 ≤ o.multiplier := by
  intro o ho
  unfold markBreaking at ho
  obtain ⟨p, hp, rfl⟩ := List.mem_map.mp ho
  by_cases hid : p.id = i
  · rw [if_pos hid]
    exact h p hp
  · rw [if_neg hid]
    exact h p hp

theorem goodState_spawnPhase (s : GameState) (b : Bool) (ts : ℚ) (rnd : TickRand)
    (hrnd : ValidTickRand rnd) (hs : GoodState s) :
    GoodState (spawnPhase s b ts rnd).1 := by
  obtain ⟨hb, ha, hc, hp, hobs⟩ := hs
  obtain ⟨⟨hr0, hr1⟩, _, _⟩ := hrnd
  have hval : 0 ≤ planNextValue s.plan.nextIndex s.plan.planned rnd.rPlan :=
    planNextValue_nonneg hp hr0
  unfold spawnPhase
  split_ifs with h1 h2
  · refine ⟨hb, ha, hc, hval, ?_⟩
    intro o ho
    simp only [cull, spawnOne] at ho
    rw [List.mem_filter] at ho
    rcases List.mem_append.mp ho.1 with hmem | hmem
    · exact hobs o hmem
    · rw [List.mem_singleton] at hmem
      subst hmem
      exact hval
  · refine ⟨hb, ha, hc, hval, ?_⟩
    intro o ho
    simp only [cull, spawnOne] at ho
    rw [List.mem_filter] at ho
    rcases List.mem_append.mp ho.1 with hmem | hmem
    · exact hobs o hmem
    · rw [List.mem_singleton] at hmem
      subst hmem
      exact hval
  · refine ⟨hb, ha, hc, hp, ?_⟩
    intro o ho
    simp only [cull] at ho
    exact hobs o (List.mem_of_mem_filter ho)

theorem spawnPhase_balance (s : GameState) (b : Bool) (ts : ℚ) (rnd : TickRand) :
    (spawnPhase s b ts rnd).1.balance = s.balance := by
  unfold spawnPhase cull spawnOne
  split_ifs <;> rfl

theorem goodState_tick (s : GameState) (ts : ℚ) (rnd : TickRand)
    (hrnd : ValidTickRand rnd) (hs : GoodState s) :
    GoodState (tick s ts rnd).1 := by
  obtain ⟨hb, ha, hc, hp, hobs⟩ := hs
  unfold tick
  by_cases hrun : s.phase = Phase.running
  · rw [if_pos hrun]
    cases hhit : hitScan s ts with
    | none =>
      dsimp only
      exact goodState_spawnPhase _ _ _ _ hrnd ⟨hb, ha, hc, hp, hobs⟩
    | some o =>
      dsimp only
      have hmem : o ∈ s.obstacles := by
        unfold hitScan at hhit
        exact List.mem_of_find?_eq_some hhit
      by_cases hice : o.iceberg
      · rw [if_pos hice]
        dsimp only
        unfold resolveHazard
        by_cases hr : rnd.rLife < 0.05
        · rw [if_pos hr]
          refine ⟨?_, ha, hc, hp, hobs⟩
          split_ifs
          · exact hb
          · exact add_nonneg hb (mul_nonneg ha hc)
        · rw [if_neg hr]
          exact ⟨hb, ha, hc, hp, hobs⟩
      · rw [if_neg hice]
        exact goodState_spawnPhase _ _ _ _ hrnd
          ⟨hb, ha, hobs o hmem, hp, goodObs_markBreaking hobs⟩
  · rw [if_neg hrun]
    exact ⟨hb, ha, hc, hp, hobs⟩

theorem goodState_startRound (s : GameState) (laneW : ℚ) (rnd : RoundRand)
    (t0 : ℚ) (hrnd : ValidRoundRand rnd) (hs : GoodState s) :
    GoodState (startRound s laneW rnd t0) := by
  obtain ⟨hb, ha, hc, hp, hobs⟩ := hs
  obtain ⟨⟨h10, h11⟩, _, ⟨h20, h21⟩, _⟩ := hrnd
  have hm1 : 0 ≤ planNextValue 1 1 rnd.rPlan1 :=
    planNextValue_nonneg (by norm_num) h10
  have hm2 : 0 ≤ planNextValue 2 (planNextValue 1 1 rnd.rPlan1) rnd.rPlan2 :=
    planNextValue_nonneg hm1 h20
  unfold startRound
  split_ifs with hb1 hr1 hj
  · exact ⟨hb, le_refl 0, hc, hp, hobs⟩
  · exact ⟨hb, ha, hc, hp, hobs⟩
  · push_neg at hb1
    refine ⟨by linarith [startStake_le (s := s) hb1], ?_, by norm_num, hm2, ?_⟩
    · have := one_le_startStake s
      show 0 ≤ startStake s
      linarith
    · intro o ho
      rcases List.mem_cons.mp ho with rfl | ho
      · exact hm1
      · rw [List.mem_singleton] at ho
        subst ho
        exact hm2
  · refine ⟨hb, le_refl 0, by norm_num, hm2, ?_⟩
    intro o ho
    rcases List.mem_cons.mp ho with rfl | ho
    · exact hm1
    · rw [List.mem_singleton] at ho
      subst ho
      exact hm2

/-- **C9**.  Over every operation of the engine: the nonnegativity
invariant of the ledger is preserved (in particular `balance ≥ 0` always);
and the balance either stays unchanged, or decreases by exactly the
round-start stake — only at a `(not running) → running` transition with
`joined = true`, the stake being clamped so that it never exceeds the
balance held at that moment — or increases by exactly
`activeStake * collectedMultiplier` — only when the one-shot guard was
unset, at a cash-out (guard becomes set, phase untouched) or at a lifeboat
outcome. -/

theorem balance_spec (s s' : GameState) (hstep : Step s s') (hs : GoodState s) :
    GoodState s' ∧ 0 ≤ s'.balance ∧
    (s'.balance = s.balance ∨
     (s.joined = true ∧ s'.balance = s.balance - startStake s ∧
       startStake s ≤ s.balance ∧ 1 ≤ s.balance ∧
       s.phase ≠ Phase.running ∧ s'.phase = Phase.running) ∨
     (s'.balance = s.balance + s.activeBet.getD 0 * s.collected ∧
       s.hasCashed = false ∧
       ((s'.hasCashed = true ∧ s'.phase = s.phase) ∨ s'.phase = Phase.lifeboat))) := by
  have hgood : GoodState s' := by
    cases hstep with
    | ofPlaceBet =>
      obtain ⟨hb, ha, hc, hp, hobs⟩ := hs
      unfold placeBet
      split_ifs
      · exact ⟨hb, ha, hc, hp, hobs⟩
      · exact ⟨hb, ha, hc, hp, hobs⟩
      · exact ⟨hb, by simpa using le_trans zero_le_one (one_le_clamp s.bet s.balance),
          hc, hp, hobs⟩
    | ofCancelBet =>
      obtain ⟨hb, ha, hc, hp, hobs⟩ := hs
      unfold cancelBet
      split_ifs
      · exact ⟨hb, ha, hc, hp, hobs⟩
      · exact ⟨hb, ha, hc, hp, hobs⟩
      · exact ⟨hb, le_refl 0, hc, hp, hobs⟩
    | ofStartBetting =>
      obtain ⟨hb, ha, hc, hp, hobs⟩ := hs
      exact ⟨hb, le_refl 0, hc, hp, hobs⟩
    | ofStartRound laneW rnd t0 hv => exact goodState_startRound s laneW rnd t0 hv hs
    | ofCashOut =>
      obtain ⟨hb, ha, hc, hp, hobs⟩ := hs
      unfold cashOutNow
      split_ifs
      · exact ⟨hb, ha, hc, hp, hobs⟩
      · exact ⟨hb, ha, hc, hp, hobs⟩
      · exact ⟨hb, ha, hc, hp, hobs⟩
      · exact ⟨add_nonneg hb (mul_nonneg ha hc), ha, hc, hp, hobs⟩
    | ofTick ts rnd hv hts => exact goodState_tick s ts rnd hv hs
    | ofRemoveById i =>
      obtain ⟨hb, ha, hc, hp, hobs⟩ := hs
      exact ⟨hb, ha, hc, hp, fun o ho => hobs o (List.mem_of_mem_filter ho)⟩
    | ofClearBreaking =>
      obtain ⟨hb, ha, hc, hp, hobs⟩ := hs
      exact ⟨hb, ha, hc, hp, fun o ho => hobs o (List.mem_of_mem_filter ho)⟩
    | ofBetInput v =>
      obtain ⟨hb, ha, hc, hp, hobs⟩ := hs
      exact ⟨hb, ha, hc, hp, hobs⟩
    | ofBetDouble =>
      obtain ⟨hb, ha, hc, hp, hobs⟩ := hs
      exact ⟨hb, ha, hc, hp, hobs⟩
    | ofBetHalve =>
      obtain ⟨hb, ha, hc, hp, hobs⟩ := hs
      exact ⟨hb, ha, hc, hp, hobs⟩
  refine ⟨hgood, hgood.1, ?_⟩
  cases hstep with
  | ofPlaceBet =>
    left
    unfold placeBet
    split_ifs <;> rfl
  | ofCancelBet =>
    left
    unfold cancelBet
    split_ifs <;> rfl
  | ofStartBetting => left; rfl
  | ofStartRound laneW rnd t0 hv =>
    unfold startRound
    split_ifs with hb1 hr1 hj
    · left; rfl
    · left; rfl
    · right; left
      push_neg at hb1
      exact ⟨hj, rfl, startStake_le hb1, hb1, hr1, rfl⟩
    · left; rfl
  | ofCashOut =>
    unfold cashOutNow
    split_ifs with h1 h2 h3
    · left; rfl
    · left; rfl
    · left; rfl
    · right; right
      simp only [Bool.not_eq_true] at h3
      exact ⟨rfl, h3, Or.inl ⟨rfl, rfl⟩⟩
  | ofTick ts rnd hv hts =>
    unfold tick
    by_cases hrun : s.phase = Phase.running
    · rw [if_pos hrun]
      cases hhit : hitScan s ts with
      | none =>
        dsimp only
        left
        rw [spawnPhase_balance]
      | some o =>
        dsimp only
        by_cases hice : o.iceberg
        · rw [if_pos hice]
          dsimp only
          unfold resolveHazard
          by_cases hr : rnd.rLife < 0.05
          · rw [if_pos hr]
            by_cases hcash : s.hasCashed = true
            · left
              simp [hcash]
            · right; right
              simp only [Bool.not_eq_true] at hcash
              refine ⟨by simp [hcash], hcash, Or.inr rfl⟩
          · rw [if_neg hr]
            left
            rfl
        · rw [if_neg hice]
          left
          rw [spawnPhase_balance]
    · rw [if_neg hrun]
      left
      rfl
  | ofRemoveById i => left; rfl
  | ofClearBreaking => left; rfl
  | ofBetInput v => left; rfl
  | ofBetDouble => left; rfl
  | ofBetHalve => left; rfl

theorem balance_spec_witness : 0 ≤ (placeBet initState).balance :=
  (balance_spec initState (placeBet initState) (Step.ofPlaceBet initState)
    (by simp [GoodState, initState])).2.1

theorem find?_split {α : Type} {p : α → Bool} {l : List α} {o : α}
    (h : l.find? p = some o) :
    ∃ l₁ l₂, l = l₁ ++ o :: l₂ ∧ ∀ x ∈ l₁, p x = false := by
  induction l with
  | nil => simp [List.find?] at h
  | cons a l ih =>
    by_cases hpa : p a = true
    · rw [List.find?_cons_of_pos _ hpa] at h
      injection h with h
      subst h
      exact ⟨[], l, rfl, by simp⟩
    · rw [List.find?_cons_of_neg _ hpa] at h
      obtain ⟨l₁, l₂, rfl, hl₁⟩ := ih h
      refine ⟨a :: l₁, l₂, rfl, ?_⟩
      intro x hx
      rcases List.mem_cons.mp hx with rfl | hx
      · cases hb : p x with
        | false => rfl
        | true => exact absurd hb hpa
      · exact hl₁ x hx

theorem hitPred_iff (s : GameState) (ts : ℚ) (o : Obstacle) :
    hitPred s ts o = true ↔
    (o.state = ObstState.idle ∧ ¬ (ts - o.bornAt < 0.25) ∧
     (o.x - tickScroll s ts) + ICE_LEFT_PAD ≤ s.shipRight + SHIP_RIGHT_PAD ∧
     s.shipLeft + SHIP_LEFT_PAD ≤ (o.x - tickScroll s ts) + o.width - ICE_RIGHT_PAD) := by
  unfold hitPred contactTest
  simp [Bool.and_eq_true, decide_eq_true_eq, Bool.not_eq_true',
    decide_eq_false_iff_not, beq_iff_eq, and_assoc]

theorem obstLe_mark (i : ℕ) {a b : Obstacle} (h : obstLe a b) :
    obstLe (if a.id = i then { a with state := ObstState.breaking } else a)
           (if b.id = i then { b with state := ObstState.breaking } else b) := by
  unfold obstLe at h ⊢
  split_ifs <;> exact h

/-- The key ordering fact: after the collision scan strikes `o`, every
obstacle of the (now marked) array that is still idle and has not passed
the ship carries a multiplier at least `o.multiplier`. -/

theorem safeHit_lower_bound (s : GameState) (ts : ℚ) (o : Obstacle)
    (hfind : s.obstacles.find? (hitPred s ts) = some o)
    (hpair : List.Pairwise obstLe s.obstacles) :
    ∀ p ∈ markBreaking s.obstacles o.id, p.state = ObstState.idle →
      s.shipLeft + SHIP_LEFT_PAD ≤ (p.x - tickScroll s ts) + p.width - ICE_RIGHT_PAD →
      o.multiplier ≤ p.multiplier := by
  obtain ⟨l₁, l₂, hsplit, hl₁⟩ := find?_split hfind
  have hoP : hitPred s ts o = true := List.find?_some hfind
  rw [hitPred_iff] at hoP
  obtain ⟨hoidle, hofresh, holeft, _⟩ := hoP
  intro p' hp' hidle hnp
  unfold markBreaking at hp'
  obtain ⟨p, hp, rfl⟩ := List.mem_map.mp hp'
  by_cases hid : p.id = o.id
  · rw [if_pos hid] at hidle
    simp at hidle
  · rw [if_neg hid] at hidle hnp ⊢
    rw [hsplit] at hp hpair
    rcases List.mem_append.mp hp with hp1 | hp2
    · exfalso
      have hfalse := hl₁ p hp1
      have hle : obstLe p o := by
        rw [List.pairwise_append] at hpair
        exact hpair.2.2 p hp1 o (List.mem_cons_self o l₂)
      have htrue : hitPred s ts p = true := by
        rw [hitPred_iff]
        refine ⟨hidle, ?_, ?_, hnp⟩
        · intro hfr
          exact hofresh (by linarith [hle.2.1])
        · linarith [hle.2.2, holeft]
      rw [htrue] at hfalse
      simp at hfalse
    · rcases List.mem_cons.mp hp2 with rfl | hp2
      · exact absurd rfl hid
      · rw [List.pairwise_append] at hpair
        have hco := hpair.2.1
        rw [List.pairwise_cons] at hco
        exact (hco.1 p hp2).1

theorem multInv_advance (s : GameState) (ts a : ℚ) (hts : s.now ≤ ts)
    (hinv : multInv s) :
    multInv { s with scroll := tickScroll s ts, spawnAccum := a, now := ts } := by
  obtain ⟨h1, h2, h3, h4, h5, h6, h7, h8⟩ := hinv
  have hsc : s.scroll ≤ tickScroll s ts := by
    unfold tickScroll
    have hdt : 0 ≤ tickDt s ts := le_min (by norm_num) (by linarith)
    nlinarith
  refine ⟨h1, h2, h3, h4, h5, h6, ?_, ?_⟩
  · intro o ho
    obtain ⟨hm, hb, hx⟩ := h7 o ho
    refine ⟨hm, by linarith, ?_⟩
    show o.x ≤ spawnWorldXFor s.speed 2 s.shipRight (tickScroll s ts)
    unfold spawnLine at hx
    unfold spawnWorldXFor at hx ⊢
    linarith
  · intro o ho hidle hnp
    refine h8 o ho hidle ?_
    show s.shipLeft + SHIP_LEFT_PAD ≤ (o.x - s.scroll) + o.width - ICE_RIGHT_PAD
    linarith [hnp]

theorem multInv_cull {s : GameState} (hinv : multInv s) : multInv (cull s) := by
  obtain ⟨h1, h2, h3, h4, h5, h6, h7, h8⟩ := hinv
  refine ⟨h1, h2, h3, h4, h5, ?_, ?_, ?_⟩
  · exact List.Pairwise.sublist (List.filter_sublist _) h6
  · intro o ho
    exact h7 o (List.mem_of_mem_filter ho)
  · intro o ho hidle hnp
    exact h8 o (List.mem_of_mem_filter ho) hidle hnp

theorem multInv_resolveHazard {s : GameState} (r : ℚ) (hinv : multInv s) :
    multInv (resolveHazard s r) := by
  unfold resolveHazard
  by_cases hr : r < 0.05
  · rw [if_pos hr]
    exact hinv
  · rw [if_neg hr]
    exact hinv

theorem resolveHazard_collected (s : GameState) (r : ℚ) :
    (resolveHazard s r).collected = s.collected := by
  unfold resolveHazard
  split_ifs <;> rfl

theorem multInv_spawnOne (s : GameState) (ts : ℚ) (rnd : TickRand)
    (hnow : s.now = ts) (hrnd : ValidTickRand rnd) (hinv : multInv s) :
    multInv (spawnOne s ts rnd) := by
  obtain ⟨h1, h2, h3, h4, h5, h6, h7, h8⟩ := hinv
  obtain ⟨⟨hr0, hr1⟩, _, _⟩ := hrnd
  obtain ⟨hPB', hmono'⟩ := planNext_bounds (p := s.plan) (r := rnd.rPlan) h3 hr0 hr1
  have hmono := hmono' h4
  refine ⟨h1, h2, hPB', ?_, ?_, ?_, ?_, ?_⟩
  · show 2 ≤ s.plan.nextIndex + 1
    omega
  · show s.collected ≤ planNextValue s.plan.nextIndex s.plan.planned rnd.rPlan
    exact le_trans h5 hmono
  · show List.Pairwise obstLe (s.obstacles ++ _)
    rw [List.pairwise_append]
    refine ⟨h6, by simp, ?_⟩
    intro a ha n hn
    rw [List.mem_singleton] at hn
    subst hn
    obtain ⟨hm, hb, hx⟩ := h7 a ha
    exact ⟨le_trans hm hmono, by rw [← hnow]; exact hb, hx⟩
  · intro o ho
    rcases List.mem_append.mp ho with ho | ho
    · obtain ⟨hm, hb, hx⟩ := h7 o ho
      exact ⟨le_trans hm hmono, hb, hx⟩
    · rw [List.mem_singleton] at ho
      subst ho
      exact ⟨le_refl _, le_of_eq hnow.symm, le_refl _⟩
  · intro o ho hidle hnp
    rcases List.mem_append.mp ho with ho | ho
    · exact h8 o ho hidle hnp
    · rw [List.mem_singleton] at ho
      subst ho
      exact le_trans h5 hmono

theorem multInv_spawnPhase (s : GameState) (b : Bool) (ts : ℚ) (rnd : TickRand)
    (hnow : s.now = ts) (hrnd : ValidTickRand rnd) (hinv : multInv s) :
    multInv (spawnPhase s b ts rnd).1 ∧
    (spawnPhase s b ts rnd).1.collected = s.collected := by
  unfold spawnPhase
  split_ifs with hA hB
  · exact ⟨multInv_cull (multInv_spawnOne s ts rnd hnow hrnd hinv), rfl⟩
  · exact ⟨multInv_cull (multInv_spawnOne s ts rnd hnow hrnd hinv), rfl⟩
  · exact ⟨multInv_cull hinv, rfl⟩

theorem multInv_safeHit (s : GameState) (ts : ℚ) (o : Obstacle)
    (hts : s.now ≤ ts) (hhit : hitScan s ts = some o) (hinv : multInv s) :
    s.collected ≤ o.multiplier ∧
    multInv { s with
      scroll := tickScroll s ts, spawnAccum := s.spawnAccum + tickDt s ts,
      now := ts, obstacles := markBreaking s.obstacles o.id,
      collected := o.multiplier, safeHits := s.safeHits + 1 } := by
  obtain ⟨h1, h2, h3, h4, h5, h6, h7, h8⟩ := hinv
  unfold hitScan at hhit
  have homem : o ∈ s.obstacles := List.mem_of_find?_eq_some hhit
  have hoP : hitPred s ts o = true := List.find?_some hhit
  rw [hitPred_iff] at hoP
  obtain ⟨hidle, hfresh, hleft, hright⟩ := hoP
  have hsc : s.scroll ≤ tickScroll s ts := by
    unfold tickScroll
    have hdt : 0 ≤ tickDt s ts := le_min (by norm_num) (by linarith)
    nlinarith
  have hcolle : s.collected ≤ o.multiplier := by
    refine h8 o homem hidle ?_
    linarith
  refine ⟨hcolle, le_trans h1 hcolle, h2, h3, h4, (h7 o homem).1, ?_, ?_, ?_⟩
  · show List.Pairwise obstLe (markBreaking s.obstacles o.id)
    unfold markBreaking
    rw [List.pairwise_map]
    exact h6.imp (obstLe_mark o.id)
  · intro p' hp'
    unfold markBreaking at hp'
    obtain ⟨p, hp, rfl⟩ := List.mem_map.mp hp'
    obtain ⟨hm, hb, hx⟩ := h7 p hp
    have hfields :
        (if p.id = o.id then { p with state := ObstState.breaking } else p).multiplier
          = p.multiplier ∧
        (if p.id = o.id then { p with state := ObstState.breaking } else p).bornAt
          = p.bornAt ∧
        (if p.id = o.id then { p with state := ObstState.breaking } else p).x
          = p.x := by
      split_ifs <;> exact ⟨rfl, rfl, rfl⟩
    rw [hfields.1, hfields.2.1, hfields.2.2]
    refine ⟨hm, by linarith, ?_⟩
    show p.x ≤ spawnWorldXFor s.speed 2 s.shipRight (tickScroll s ts)
    unfold spawnLine at hx
    unfold spawnWorldXFor at hx ⊢
    linarith
  · intro p' hp' hpidle hpnp
    exact safeHit_lower_bound s ts o hhit h6 p' hp' hpidle hpnp

/-- **C8**.  During a running round `collectedMultiplier` is always at
least 1 and never decreases across a tick; it is reset to 1 at round start
(which also re-establishes the round invariant `multInv`), and a tick
changes it only when the collision scan strikes a safe obstacle, in which
case it becomes exactly that obstacle's planned multiplier (no contact
leaves it untouched). -/

theorem collected_spec :
    (∀ (s : GameState) (ts : ℚ) (rnd : TickRand), s.phase = Phase.running →
      s.now ≤ ts → ValidTickRand rnd → multInv s →
      multInv (tick s ts rnd).1 ∧
      s.collected ≤ (tick s ts rnd).1.collected ∧
      1 ≤ (tick s ts rnd).1.collected ∧
      (hitScan s ts = none → (tick s ts rnd).1.collected = s.collected) ∧
      (∀ o, hitScan s ts = some o → o.iceberg = false →
        (tick s ts rnd).1.collected = o.multiplier)) ∧
    (∀ (s : GameState) (laneW : ℚ) (rrnd : RoundRand) (t0 : ℚ),
      ValidRoundRand rrnd → 1 ≤ s.balance → s.phase ≠ Phase.running →
      (startRound s laneW rrnd t0).collected = 1 ∧
      multInv (startRound s laneW rrnd t0)) := by
  constructor
  · intro s ts rnd hrun hts hrnd hinv
    unfold tick
    rw [if_pos hrun]
    cases hhit : hitScan s ts with
    | none =>
      dsimp only
      have h0 := multInv_advance s ts (s.spawnAccum + tickDt s ts) hts hinv
      have hsp := multInv_spawnPhase _ false ts rnd rfl hrnd h0
      refine ⟨hsp.1, ?_, ?_, fun _ => ?_, fun o ho _ => ?_⟩
      · rw [hsp.2]
      · rw [hsp.2]
        exact hinv.1
      · rw [hsp.2]
      · cases ho
    | some o =>
      dsimp only
      by_cases hice : o.iceberg
      · rw [if_pos hice]
        dsimp only
        have h0 := multInv_advance s ts (s.spawnAccum + tickDt s ts) hts hinv
        refine ⟨multInv_resolveHazard rnd.rLife h0, ?_, ?_, fun hnone => ?_,
          fun o' ho' hiz => ?_⟩
        · rw [resolveHazard_collected]
        · rw [resolveHazard_collected]
          exact hinv.1
        · cases hnone
        · injection ho' with ho'
          subst ho'
          rw [hice] at hiz
          cases hiz
      · rw [if_neg hice]
        obtain ⟨hmono, hinv1⟩ := multInv_safeHit s ts o hts hhit hinv
        have hsp := multInv_spawnPhase _ true ts rnd rfl hrnd hinv1
        refine ⟨hsp.1, ?_, ?_, fun hnone => ?_, fun o' ho' _ => ?_⟩
        · rw [hsp.2]
          exact hmono
        · rw [hsp.2]
          exact le_trans hinv.1 hmono
        · cases hnone
        · injection ho' with ho'
          subst ho'
          rw [hsp.2]
  · intro s laneW rrnd t0 hrv hbal hph
    obtain ⟨⟨h10, h11⟩, _, ⟨h20, h21⟩, _⟩ := hrv
    have hPB2 : PlanBounds (planNextMultiplier ⟨1, 1⟩ rrnd.rPlan1).2 :=
      (planNext_bounds planBounds_init h10 h11).1
    have hPB3 := (planNext_bounds hPB2 h20 h21).1
    have hmono2 := (planNext_bounds hPB2 h20 h21).2 (by norm_num [planNextMultiplier])
    have hplanned : (planNextMultiplier ⟨1, 1⟩ rrnd.rPlan1).2.planned
        = planNextValue 1 1 rrnd.rPlan1 := rfl
    rw [hplanned] at hmono2
    obtain ⟨hm1a, hm1b⟩ :=
      planNextValue_first (l := (1 : ℚ)) (r := rrnd.rPlan1) h10 h11
    have hsp0 : (0 : ℚ) ≤ max 60 ((laneW - 12 - s.shipRight) / 4) * SPEED_MULTIPLIER := by
      have h60 : (0 : ℚ) ≤ max 60 ((laneW - 12 - s.shipRight) / 4) :=
        le_trans (by norm_num) (le_max_left _ _)
      unfold SPEED_MULTIPLIER
      nlinarith
    unfold startRound
    rw [if_neg (not_lt.mpr hbal), if_neg hph]
    refine ⟨rfl, ?_, hsp0, hPB3, by norm_num [planNextMultiplier], ?_, ?_, ?_, ?_⟩
    · norm_num
    · show (1 : ℚ) ≤ (planNextMultiplier
        (planNextMultiplier ⟨1, 1⟩ rrnd.rPlan1).2 rrnd.rPlan2).1
      linarith [hm1a, hmono2]
    · rw [List.pairwise_cons]
      refine ⟨?_, by simp⟩
      intro b hb
      rw [List.mem_singleton] at hb
      subst hb
      refine ⟨?_, le_refl _, ?_⟩
      · exact hmono2
      · show spawnWorldXFor _ 1 s.shipRight 0 ≤ spawnWorldXFor _ 2 s.shipRight 0
        unfold spawnWorldXFor HIT_INTERVAL
        nlinarith
    · intro o ho
      rcases List.mem_cons.mp ho with rfl | ho
      · refine ⟨hmono2, le_refl _, ?_⟩
        show spawnWorldXFor _ 1 s.shipRight 0 ≤ spawnLine _
        unfold spawnLine spawnWorldXFor HIT_INTERVAL
        nlinarith
      · rw [List.mem_singleton] at ho
        subst ho
        exact ⟨le_refl _, le_refl _, le_refl _⟩
    · intro o ho _ _
      rcases List.mem_cons.mp ho with rfl | ho
      · show (1 : ℚ) ≤ planNextValue 1 1 rrnd.rPlan1
        linarith
      · rw [List.mem_singleton] at ho
        subst ho
        show (1 : ℚ) ≤ (planNextMultiplier
          (planNextMultiplier ⟨1, 1⟩ rrnd.rPlan1).2 rrnd.rPlan2).1
        linarith [hm1a, hmono2]

theorem collected_spec_witness :
    (startRound initState 980 ⟨0, 0, 0, 0⟩ 0).collected = 1 ∧
    tickDemo.collected ≤ (tick tickDemo 1 ⟨0, 0, 0⟩).1.collected := by
  have hminv : multInv tickDemo := by
    refine ⟨by norm_num [tickDemo, initState], by norm_num [tickDemo, initState],
      ⟨is2Dec_num 150 _ (by norm_num [tickDemo, initState]), ?_, ?_, ?_⟩,
      ?_, ?_, ?_, ?_, ?_⟩
    · norm_num [tickDemo, initState]
    · intro _
      norm_num [tickDemo, initState]
    · norm_num [tickDemo, initState]
    · norm_num [tickDemo, initState]
    · norm_num [tickDemo, initState]
    · simp [tickDemo, initState]
    · simp [tickDemo, initState]
    · simp [tickDemo, initState]
  obtain ⟨hc, _⟩ := collected_spec.2 initState 980 ⟨0, 0, 0, 0⟩ 0
    (by norm_num [ValidRoundRand]) (by norm_num [initState]) (by simp [initState])
  obtain ⟨_, hmono, _⟩ := collected_spec.1 tickDemo 1 ⟨0, 0, 0⟩ rfl
    (by norm_num [tickDemo, initState]) (by norm_num [ValidTickRand]) hminv
  exact ⟨hc, hmono⟩

end Cruise
